import Mathlib

/-!
Verification of the MuseScore converter core
(`src/converter/internal/convertercontroller.cpp`): the JobSpec parser
(`parseBatchJob`), the batch runner (`batchConvert`), the single-job
dispatcher (`fileConvert`) and the per-part / page-by-page conversion
strategies, shallowly embedded in Lean.  External collaborators (writer
registry, document loader, extension runner, file I/O, the transpose-option
parser) are modelled as explicit environment parameters; the control flow,
string manipulation and error codes are translated from the C++ source.
-/

namespace Conv

/-- Error codes of the converter, from `convertercodes.h` usage sites in
`convertercontroller.cpp`. -/
inductive ErrCode where
  | UnknownError
  | ConvertTypeUnknown
  | NotSupported
  | InFileFailedLoad
  | OutFileFailedOpen
  | OutFileFailedWrite
  | ConvertFailed
  | BatchJobFileFailedOpen
  | BatchJobFileFailedParse
  | TransposeParseFailed
  deriving DecidableEq

/-- `muse::Ret`: success, or an error code with a message text. -/
inductive Ret where
  | ok
  | err (code : ErrCode) (msg : String)
  deriving DecidableEq

/-- Whether a `Ret` is a success (C++ `operator bool` of `Ret`). -/
def Ret.success : Ret → Bool
  | .ok => true
  | .err _ _ => false

/-- Display name of an error code, used by `Ret.toString`. -/
def ErrCode.text : ErrCode → String
  | .UnknownError => "UnknownError"
  | .ConvertTypeUnknown => "ConvertTypeUnknown"
  | .NotSupported => "NotSupported"
  | .InFileFailedLoad => "InFileFailedLoad"
  | .OutFileFailedOpen => "OutFileFailedOpen"
  | .OutFileFailedWrite => "OutFileFailedWrite"
  | .ConvertFailed => "ConvertFailed"
  | .BatchJobFileFailedOpen => "BatchJobFileFailedOpen"
  | .BatchJobFileFailedParse => "BatchJobFileFailedParse"
  | .TransposeParseFailed => "TransposeParseFailed"

/-- `Ret::toString`, used when formatting a per-job failure entry.  The exact
text is immaterial to the claims; only the surrounding entry format matters. -/
def Ret.toString : Ret → String
  | .ok => "success"
  | .err c m => c.text ++ ": " ++ m

/-! ### Path helpers

Modelled from the spec (§4.2 Path/Naming Resolver): the `muse::io` path
helpers (`suffix`, `completeBasename`, `dirpath`) and
`io::Dir::fromNativeSeparators` live in the muse framework, outside the
repository slice under `src/`; they carry the Qt `QFileInfo`/`QDir`
semantics the controller relies on: the file name is the part after the
last path separator, the suffix is the part of the file name after its
last dot (empty when there is no dot), the complete base name is the part
of the file name before its last dot, and the directory path is the part
before the last separator (`.` when there is none, `/` for root files). -/

/-- Split a character list at the LAST occurrence of `sep`:
`splitLast sep l = some (pre, post)` iff `l = pre ++ [sep] ++ post` with
`post` free of `sep`; `none` when `sep` does not occur. -/
def splitLast (sep : Char) : List Char → Option (List Char × List Char)
  | [] => none
  | c :: cs =>
    match splitLast sep cs with
    | some (p, q) => some (c :: p, q)
    | none => if c = sep then some ([], cs) else none

/-- Modelled from the spec: the file-name component of a path (after the
last `/`). -/
def fileNameOf (p : String) : String :=
  match splitLast '/' p.data with
  | some (_, post) => ⟨post⟩
  | none => p

/-- Modelled from the spec: `io::suffix` — the output-kind suffix, i.e. the
part of the file name after its last dot, empty when the file name has no
dot. -/
def suffixOf (p : String) : String :=
  match splitLast '.' (fileNameOf p).data with
  | some (_, post) => ⟨post⟩
  | none => ""

/-- Modelled from the spec: `io::completeBasename` — the file name up to
(but excluding) its last dot; the whole file name when it has no dot. -/
def completeBasenameOf (p : String) : String :=
  match splitLast '.' (fileNameOf p).data with
  | some (pre, _) => ⟨pre⟩
  | none => fileNameOf p

/-- Modelled from the spec: `io::dirpath` — the directory part of a path
(`.` when the path has no separator, `/` for files directly under root). -/
def dirpathOf (p : String) : String :=
  match splitLast '/' p.data with
  | some ([], _) => "/"
  | some (pre, _) => ⟨pre⟩
  | none => "."

/-- Modelled from the spec: `io::Dir::fromNativeSeparators` (the
`correctUserInputPath` lambda in `parseBatchJob`) — normalizes platform
path separators, turning backslashes into slashes. -/
def correctUserInputPath (s : String) : String :=
  ⟨s.data.map (fun c => if c = '\\' then '/' else c)⟩

/-- `QString::replace("*", repl)` on a base name: every occurrence of the
placeholder `*` is replaced by `repl`. -/
def replaceStar (repl : String) : List Char → List Char
  | [] => []
  | c :: cs => if c = '*' then repl.data ++ replaceStar repl cs
               else c :: replaceStar repl cs

/-! ### JSON model (Qt `QJsonValue` semantics) -/

/-- A JSON value, with Qt-style lenient accessors below. -/
inductive JVal where
  | null
  | bool (b : Bool)
  | num (n : Int)
  | str (s : String)
  | arr (xs : List JVal)
  | obj (fields : List (String × JVal))

/-- `QJsonValue::operator[](key)`: field lookup, `Undefined` (here `null`)
when the value is not an object or the key is missing. -/
def JVal.get (v : JVal) (key : String) : JVal :=
  match v with
  | .obj fields =>
    match fields.find? (fun f => f.1 = key) with
    | some f => f.2
    | none => .null
  | _ => .null

/-- `QJsonValue::toString()`: the string value, `""` otherwise. -/
def JVal.toStr : JVal → String
  | .str s => s
  | _ => ""

/-- `QJsonValue::toArray()`: the element list, `[]` otherwise. -/
def JVal.toArr : JVal → List JVal
  | .arr xs => xs
  | _ => []

/-- `QJsonValue::toObject()`: the field list, `{}` otherwise. -/
def JVal.toObj : JVal → List (String × JVal)
  | .obj fields => fields
  | _ => []

/-- `QJsonValue::isString()`. -/
def JVal.isStr : JVal → Bool
  | .str _ => true
  | _ => false

/-- `QJsonValue::isArray()`. -/
def JVal.isArr : JVal → Bool
  | .arr _ => true
  | _ => false

/-! ### JobSpec parser (`ConverterController::parseBatchJob`) -/

/-- A parsed transpose-options payload.  `TransposeOptions` is opaque to
this core (spec §3); we keep the JSON object it was parsed from. -/
abbrev TOpts := List (String × JVal)

/-- The external transpose-option parser
(`ConverterUtils::parseTransposeOptions`), a collaborator supplied as a
parameter: given the non-empty `transpose` JSON object it yields options
or a `Ret` error. -/
abbrev TParser := List (String × JVal) → Except Ret TOpts

/-- `ConverterController::Job`: one normalized unit of work. -/
structure Job where
  input : String
  out : String
  transposeOptions : Option TOpts

/-- Output path contributed by one element of an array-valued `out`
(`parseBatchJob`, lines 293–300): a string element is a literal path; a
2-element array `[p, s]` becomes `p + "*" + s` (the source appends the
suffix text directly after the placeholder, with no dot); any other
element leaves the job's output path empty. -/
def outPathOfItem (item : JVal) : String :=
  if item.isStr then correctUserInputPath item.toStr
  else
    match item with
    | .arr [a, b] => correctUserInputPath a.toStr ++ "*" ++ b.toStr
    | _ => ""

/-- The transpose step of the parser loop body (`parseBatchJob`, lines
275–283): an empty (or absent, or non-object) `transpose` leaves the job
without options; a non-empty object must parse, and its parse error is
returned as the parse result of the whole batch. -/
def transposeStep (pt : TParser) (v : JVal) : Except Ret (Option TOpts) :=
  let tObj := (v.get "transpose").toObj
  if tObj.isEmpty then .ok none
  else (pt tObj).map Option.some

/-- The jobs contributed by one job object's `out` field (`parseBatchJob`,
lines 285–303), the other fields copied from `job`: a string gives one
job with that literal path, an array gives one job per element in order,
and any other shape contributes no job. -/
def outChunk (job : Job) : JVal → List Job
  | .str s => [{ job with out := correctUserInputPath s }]
  | .arr items => items.map (fun it => { job with out := outPathOfItem it })
  | _ => []

/-- The jobs contributed by one job object of the batch array
(`parseBatchJob` loop body): reads `in`, parses a non-empty `transpose`
object (failing fast on its error), then expands `out`. -/
def parseObj (pt : TParser) (v : JVal) : Except Ret (List Job) := do
  let topts ← transposeStep pt v
  let job : Job := { input := correctUserInputPath (v.get "in").toStr,
                     out := "", transposeOptions := topts }
  pure (outChunk job (v.get "out"))

/-- The parser loop over the batch array: objects processed in order, the
first transpose-parse failure aborts the whole parse. -/
def parseJobs (pt : TParser) : List JVal → Except Ret (List Job)
  | [] => .ok []
  | v :: vs => do
    let chunk ← parseObj pt v
    let rest ← parseJobs pt vs
    pure (chunk ++ rest)

/-- `ConverterController::parseBatchJob`, from the point where the batch
file's bytes have been parsed into a JSON document (file I/O and the JSON
lexer are external): a non-array document fails with
`BatchJobFileFailedParse`; an array is expanded object by object. -/
def parseBatchJob (pt : TParser) (doc : JVal) : Except Ret (List Job) :=
  match doc with
  | .arr objs => parseJobs pt objs
  | _ => .error (.err .BatchJobFileFailedParse "")

/-! ### Conversion strategies -/

/-- The external file system and writer collaborators, abstracted per
output path: `openOk p` is whether `File(p).open(WriteOnly)` succeeds,
`writeOk p` whether the writer's `write` call on that file succeeds. -/
structure IoEnv where
  openOk : String → Bool
  writeOk : String → Bool

/-- Native document suffixes (`engraving::MSCZ`, `MSCX`, `MSCS`). -/
def MSCZ : String := "mscz"

/-- Native document suffix `mscx`. -/
def MSCX : String := "mscx"

/-- Native document suffix `mscs`. -/
def MSCS : String := "mscs"

/-- `ConverterController::isConvertPageByPage`: the page-segmented output
suffixes are `png` and `svg`. -/
def isConvertPageByPage (sfx : String) : Bool :=
  sfx = "png" || sfx = "svg"

/-- The output file path of page `i` (0-based) in
`ConverterController::convertPageByPage`:
`dirpath(out) + "/" + completeBasename(out) + "-%1." + suffix(out)` with
`%1` substituted by the 1-based page number `i + 1`. -/
def pageFilePath (out : String) (i : Nat) : String :=
  dirpathOf out ++ "/" ++ completeBasenameOf out ++ "-" ++ Nat.repr (i + 1)
    ++ "." ++ suffixOf out

/-- Loop of `convertPageByPage` over the page indices: besides the `Ret`,
the trace records, per successfully written page, the output file path and
the 0-based `PAGE_NUMBER` writer option passed with it. -/
def pbpGo (env : IoEnv) (out : String) : List Nat → Ret × List (String × Nat)
  | [] => (.ok, [])
  | i :: rest =>
    let fp := pageFilePath out i
    if env.openOk fp = false then (.err .OutFileFailedOpen "", [])
    else if env.writeOk fp = false then (.err .OutFileFailedWrite "", [])
    else
      let r := pbpGo env out rest
      (r.1, (fp, i) :: r.2)

/-- `ConverterController::convertPageByPage` for a document with `pages`
pages. -/
def convertPageByPage (env : IoEnv) (pages : Nat) (out : String) :
    Ret × List (String × Nat) :=
  pbpGo env out (List.range pages)

/-- The per-part output path used by `convertScorePartsToPdf` / `ToPngs` /
`ToMp3`: `dirpath(out) + "/" + baseName.replace("*", partName) + "." + sfx`
where `baseName` is the complete base name of the templated output path
and `sfx` the literal suffix the function appends. -/
def partPath (out partName sfx : String) : String :=
  dirpathOf out ++ "/" ++ String.mk (replaceStar partName (completeBasenameOf out).data)
    ++ "." ++ sfx

/-- Shared loop shape of `convertScorePartsToPdf` and
`convertScorePartsToMp3` over the excerpt (part) names in declaration
order: open the per-part path, write with `{UNIT_TYPE: PER_PART}`, stop at
the first open or write failure. -/
def partsWriteGo (env : IoEnv) (sfx out : String) : List String → Ret
  | [] => .ok
  | p :: ps =>
    let po := partPath out p sfx
    if env.openOk po = false then .err .OutFileFailedOpen ""
    else if env.writeOk po = false then .err .OutFileFailedWrite ""
    else partsWriteGo env sfx out ps

/-- `ConverterController::convertScorePartsToPdf` over the part names. -/
def convertScorePartsToPdf (env : IoEnv) (partNames : List String)
    (out : String) : Ret :=
  partsWriteGo env "pdf" out partNames

/-- `ConverterController::convertScorePartsToMp3` over the part names. -/
def convertScorePartsToMp3 (env : IoEnv) (partNames : List String)
    (out : String) : Ret :=
  partsWriteGo env "mp3" out partNames

/-- Loop of `convertScorePartsToPngs`: for each part, build the `.png`
per-part path and delegate to page-by-page conversion of that part
(`pagesOf` gives the page count of a part's score), stopping at the first
failure. -/
def partsToPngsGo (env : IoEnv) (pagesOf : String → Nat) (out : String) :
    List String → Ret
  | [] => .ok
  | p :: ps =>
    let pngPath := partPath out p "png"
    let r := (convertPageByPage env (pagesOf p) pngPath).1
    if r.success = false then r else partsToPngsGo env pagesOf out ps

/-- `ConverterController::convertScorePartsToPngs` over the part names. -/
def convertScorePartsToPngs (env : IoEnv) (partNames : List String)
    (pagesOf : String → Nat) (out : String) : Ret :=
  partsToPngsGo env pagesOf out partNames

/-- `ConverterController::convertScoreParts` (writer/master overload): the
per-part entry point branches on the output suffix — `pdf`, `png` and
`mp3` are the part-splitting kinds, everything else is `NotSupported`. -/
def convertScoreParts (env : IoEnv) (partNames : List String)
    (pagesOf : String → Nat) (out : String) : Ret :=
  let sfx := suffixOf out
  if sfx = "pdf" then convertScorePartsToPdf env partNames out
  else if sfx = "png" then convertScorePartsToPngs env partNames pagesOf out
  else if sfx = "mp3" then convertScorePartsToMp3 env partNames out
  else .err .NotSupported ""

/-- `ConverterController::convertByExtension`: run the extension (its
result supplied by the environment, since the extension runner is an
external collaborator), then a single whole-document write to `out`. -/
def convertByExtension (env : IoEnv) (extensionRet : Ret) (out : String) : Ret :=
  if extensionRet.success = false then extensionRet
  else if env.openOk out = false then .err .OutFileFailedOpen ""
  else if env.writeOk out = false then .err .OutFileFailedWrite ""
  else .ok

/-- `ConverterController::convertFullNotation` (single whole-document
conversion): open the output path, one write, no special options. -/
def convertFullScore (env : IoEnv) (out : String) : Ret :=
  if env.openOk out = false then .err .OutFileFailedOpen ""
  else if env.writeOk out = false then .err .OutFileFailedWrite ""
  else .ok

/-! ### Single-job dispatcher (`ConverterController::fileConvert`) -/

/-- The conversion strategy chosen by the dispatcher's branch. -/
inductive Strategy where
  | parts
  | ext
  | nativeSave
  | pageByPage
  | whole
  deriving DecidableEq

/-- Environment of one `fileConvert` call: the external collaborators'
behavior.  `hasWriter` is the writer-registry lookup by suffix,
`projectValid` whether `notationCreator()->newProject` yields a project,
`loadOk` the document loader's verdict on the input, `transposeRet` the
result of `ConverterUtils::applyTranspose` when transpose options are
present, `extensionRet` the extension runner's result, `saveRet` the
document's own `save(out)` result, and `partNames` / `pages` / `pagesOf`
describe the loaded document's excerpt list and page counts. -/
structure FcEnv where
  hasWriter : String → Bool
  projectValid : Bool
  loadOk : Bool
  transposeRet : Ret
  extensionRet : Ret
  saveRet : Ret
  io : IoEnv
  partNames : List String
  pages : Nat
  pagesOf : String → Nat

/-- Result of one `fileConvert` call, with an execution trace:
`loadAttempted` records whether the document loader was invoked,
`strategy` which dispatch branch ran (`none` when the call failed before
the branch), `currentDuring` the process-wide current-project slot at the
moment of the strategy branch, and `currentFinal` the slot when the call
returns (the `DEFER` block clears it on every path out of the dispatch
region). -/
structure FcRes where
  ret : Ret
  loadAttempted : Bool
  strategy : Option Strategy
  currentDuring : Option String
  currentFinal : Option String

/-- `ConverterController::fileConvert` (parsed-options overload), with the
process-wide current-project slot threaded explicitly (`g0` its value on
entry).  The sound-profile step only mutates audio settings and cannot
fail, so it leaves no trace here.  Order of operations is the source's:
writer lookup, project creation, load, transpose, registration of the
current project, then the strategy branch under a `DEFER` that clears the
registration. -/
def fileConvert (env : FcEnv) (inp out : String) (extensionValid : Bool)
    (topts : Option TOpts) (g0 : Option String) : FcRes :=
  let sfx := suffixOf out
  if env.hasWriter sfx = false then
    ⟨.err .ConvertTypeUnknown "", false, none, g0, g0⟩
  else if env.projectValid = false then
    ⟨.err .UnknownError "", false, none, g0, g0⟩
  else if env.loadOk = false then
    ⟨.err .InFileFailedLoad "", true, none, g0, g0⟩
  else if topts.isSome = true ∧ env.transposeRet.success = false then
    ⟨env.transposeRet, true, none, g0, g0⟩
  else
    let g1 : Option String := some inp
    let branch : Strategy × Ret :=
      if (completeBasenameOf out).data.contains '*' then
        (.parts, convertScoreParts env.io env.partNames env.pagesOf out)
      else if extensionValid then
        (.ext, convertByExtension env.io env.extensionRet out)
      else if sfx = MSCZ ∨ sfx = MSCX ∨ sfx = MSCS then
        (.nativeSave, env.saveRet)
      else if isConvertPageByPage sfx then
        (.pageByPage, (convertPageByPage env.io env.pages out).1)
      else
        (.whole, convertFullScore env.io out)
    ⟨branch.2, true, some branch.1, g1, none⟩

/-! ### Batch runner (`ConverterController::batchConvert`) -/

/-- The per-job failure entry appended to the error list
(`batchConvert`, line 80): `"failed convert, err: %1, in: %2, out: %3"`. -/
def fmtJobError (r : Ret) (j : Job) : String :=
  "failed convert, err: " ++ r.toString ++ ", in: " ++ j.input ++ ", out: " ++ j.out

/-- `StringList::join(u"\n")`. -/
def joinNl : List String → String
  | [] => ""
  | [s] => s
  | s :: t :: rest => s ++ "\n" ++ joinNl (t :: rest)

/-- The batch loop: for each job in order, report progress with the job's
input path, convert (`convert` abstracts the `fileConvert` call of the
loop body), and on failure append the formatted entry.  Returns the
progress trace (every processed job's input path, in order) and the error
list. -/
def batchRun (convert : Job → Ret) : List Job → List String × List String
  | [] => ([], [])
  | j :: js =>
    let r := convert j
    let rest := batchRun convert js
    (j.input :: rest.1,
     if r.success then rest.2 else fmtJobError r j :: rest.2)

/-- Aggregation after the batch loop: a composite `ConvertFailed` whose
message newline-joins the entries when any job failed, success
otherwise. -/
def batchConvertJobs (convert : Job → Ret) (jobs : List Job) : Ret :=
  let errors := (batchRun convert jobs).2
  if errors.isEmpty then .ok
  else .err .ConvertFailed (joinNl errors)

/-- `ConverterController::batchConvert` from the parsed batch document on:
a parse failure returns immediately with the parse error and no job is
processed; otherwise the loop runs and the aggregate is returned.  The
second component is the progress trace of processed jobs. -/
def batchConvert (pt : TParser) (convert : Job → Ret) (doc : JVal) :
    Ret × List String :=
  match parseBatchJob pt doc with
  | .error e => (e, [])
  | .ok jobs => (batchConvertJobs convert jobs, (batchRun convert jobs).1)

/-! ### Concrete objects used by witnesses and counterexamples -/

/-- An `out` value of a shape that contributes at least one job: a string
or a non-empty array. -/
def goodOutVal : JVal → Bool
  | .str _ => true
  | .arr items => !items.isEmpty
  | _ => false

/-- A `goodOut` job object declares its `out` as a string or a non-empty
array. -/
def goodOut (v : JVal) : Bool := goodOutVal (v.get "out")

/-- The job object `{"in":"a.ext","out":["b.pdf","c.svg"]}`. -/
def objW2 : JVal :=
  .obj [("in", .str "a.ext"), ("out", .arr [.str "b.pdf", .str "c.svg"])]

/-- The two jobs `objW2` expands to. -/
def jobs2W : List Job :=
  [{ input := "a.ext", out := "b.pdf", transposeOptions := none },
   { input := "a.ext", out := "c.svg", transposeOptions := none }]

/-- Whether a batch document parses successfully. -/
def parseOk (pt : TParser) (doc : JVal) : Bool :=
  match parseBatchJob pt doc with
  | .ok _ => true
  | .error _ => false

/-- A transpose parser that accepts any payload. -/
def ptOk : TParser := fun o => .ok o

/-- A transpose parser that rejects any payload. -/
def ptFail : TParser := fun _ => .error (.err .TransposeParseFailed "bad transpose")

/-- The batch document `[{"in":"a.ext","out":[["parts/","pdf"]]}]` of the
spec's templated-output example. -/
def docC1 : JVal :=
  .arr [.obj [("in", .str "a.ext"),
              ("out", .arr [.arr [.str "parts/", .str "pdf"]])]]

/-- The batch document `[{"in":"a.ext"}]`: one declared job object with no
`out` field. -/
def docNoOut : JVal := .arr [.obj [("in", .str "a.ext")]]

/-- A job object with a transpose payload and a string `out`. -/
def objWithTranspose : JVal :=
  .obj [("in", .str "a.ext"), ("out", .str "b.pdf"),
        ("transpose", .obj [("mode", .str "by_interval")])]

/-- A job object whose `in` is absent and whose `out` array holds an
element that is neither a string nor a 2-element array. -/
def objOddFields : JVal := .obj [("out", .arr [.num 3])]

/-- An I/O environment where every open and every write succeeds. -/
def ioAll : IoEnv := ⟨fun _ => true, fun _ => true⟩

/-- A dispatcher environment where every collaborator succeeds. -/
def envAll : FcEnv :=
  { hasWriter := fun _ => true
    projectValid := true
    loadOk := true
    transposeRet := .ok
    extensionRet := .ok
    saveRet := .ok
    io := ioAll
    partNames := ["Violin", "Cello"]
    pages := 2
    pagesOf := fun _ => 1 }

/-- A dispatcher environment whose writer registry is empty and whose
loader would succeed. -/
def envNoWriter : FcEnv := { envAll with hasWriter := fun _ => false }

/-- A three-job batch whose middle job's input fails to load. -/
def jobsW : List Job :=
  [{ input := "a1.mscz", out := "b1.pdf", transposeOptions := none },
   { input := "a2.mscz", out := "b2.pdf", transposeOptions := none },
   { input := "a3.mscz", out := "b3.pdf", transposeOptions := none }]

/-- A per-job conversion that fails (load failure) exactly on input
`a2.mscz`. -/
def convW : Job → Ret := fun j =>
  if j.input = "a2.mscz" then .err .InFileFailedLoad "" else .ok

/-! ### Parser lemmas -/

/-- `parseObj` is the transpose step followed by the pure `out`
expansion. -/
theorem parseObj_eq (pt : TParser) (v : JVal) :
    parseObj pt v = (transposeStep pt v).map (fun topts =>
      outChunk { input := correctUserInputPath (v.get "in").toStr,
                 out := "", transposeOptions := topts } (v.get "out")) := by
  unfold parseObj
  cases h : transposeStep pt v <;>
    simp [h, Except.map, Bind.bind, Except.bind, Pure.pure, Except.pure]

/-- Characterization of a successful `parseJobs` step. -/
theorem parseJobs_cons_ok (pt : TParser) (v : JVal) (vs : List JVal)
    (jobs : List Job) :
    parseJobs pt (v :: vs) = .ok jobs ↔
    ∃ c rest, parseObj pt v = .ok c ∧ parseJobs pt vs = .ok rest ∧
      jobs = c ++ rest := by
  cases h1 : parseObj pt v <;> cases h2 : parseJobs pt vs <;>
    simp [parseJobs, h1, h2, Bind.bind, Except.bind, Pure.pure, Except.pure]
  all_goals aesop

/-- A failing head object makes the whole loop fail with its error. -/
theorem parseJobs_cons_error_head (pt : TParser) (v : JVal) (vs : List JVal)
    (e : Ret) (h : parseObj pt v = .error e) :
    parseJobs pt (v :: vs) = .error e := by
  simp [parseJobs, h, Bind.bind, Except.bind]

/-- A successful head object propagates the tail's outcome. -/
theorem parseJobs_cons_ok_head (pt : TParser) (v : JVal) (vs : List JVal)
    (c : List Job) (h : parseObj pt v = .ok c) :
    parseJobs pt (v :: vs) = (parseJobs pt vs).map (fun rest => c ++ rest) := by
  cases h2 : parseJobs pt vs <;>
    simp [parseJobs, h, h2, Bind.bind, Except.bind, Pure.pure, Except.pure,
          Except.map]

/-- A non-empty transpose object whose parse fails makes `transposeStep`
fail with the collaborator's error. -/
theorem transposeStep_fail (pt : TParser) (v : JVal) (e : Ret)
    (hne : ((v.get "transpose").toObj).isEmpty = false)
    (hf : pt ((v.get "transpose").toObj) = .error e) :
    transposeStep pt v = .error e := by
  unfold transposeStep
  simp [hne, hf, Except.map]

/-- When the transpose step succeeds, `parseObj` succeeds. -/
theorem parseObj_ok_of_transposeStep_ok (pt : TParser) (v : JVal)
    (topts : Option TOpts) (h : transposeStep pt v = .ok topts) :
    parseObj pt v = .ok
      (outChunk { input := correctUserInputPath (v.get "in").toStr,
                  out := "", transposeOptions := topts } (v.get "out")) := by
  simp [parseObj_eq, h, Except.map]

/-- A successful `parseObj` comes from a successful transpose step, and
its chunk is the pure `out` expansion. -/
theorem parseObj_ok_elim (pt : TParser) (v : JVal) (c : List Job)
    (h : parseObj pt v = .ok c) :
    ∃ topts, transposeStep pt v = .ok topts ∧
      c = outChunk { input := correctUserInputPath (v.get "in").toStr,
                     out := "", transposeOptions := topts } (v.get "out") := by
  rw [parseObj_eq] at h
  cases ht : transposeStep pt v with
  | error e => rw [ht] at h; simp [Except.map] at h
  | ok topts =>
    rw [ht] at h
    simp [Except.map] at h
    exact ⟨topts, rfl, h.symm⟩

/-- A good `out` value contributes at least one job. -/
theorem outChunk_length_pos (job : Job) (w : JVal)
    (h : goodOutVal w = true) : 1 ≤ (outChunk job w).length := by
  cases w <;> simp_all [goodOutVal, outChunk]
  exact List.length_pos.mpr (by simpa using h)

/-! ### Claim C1 -/

/-- C1 (code bug): the spec requires a 2-element `[prefix, suffix]` entry
of an array-valued `out` to produce the output template
`prefix + "*" + "." + suffix`, so that the batch document
`[{"in":"a.ext","out":[["parts/","pdf"]]}]` yields, for sub-documents
`Violin` and `Cello`, the paths `parts/Violin.pdf` and `parts/Cello.pdf`.
The source (line 299) concatenates the suffix directly after the
placeholder with no dot: the parsed job's output template is
`parts/*pdf`, the resolved per-part paths are `parts/Violinpdf.pdf` and
`parts/Cellopdf.pdf` — not the claimed ones — and the template's own
suffix is empty, so the dispatcher's writer lookup can never succeed on
such a template.  With the dot the spec requires, the same resolution
yields exactly the claimed paths. -/
theorem parseBatchJob_template_missing_dot :
    parseBatchJob ptOk docC1 =
      .ok [{ input := "a.ext", out := "parts/*pdf", transposeOptions := none }]
    ∧ partPath "parts/*pdf" "Violin" "pdf" = "parts/Violinpdf.pdf"
    ∧ partPath "parts/*pdf" "Cello" "pdf" = "parts/Cellopdf.pdf"
    ∧ partPath "parts/*pdf" "Violin" "pdf" ≠ "parts/Violin.pdf"
    ∧ suffixOf "parts/*pdf" = ""
    ∧ partPath "parts/*.pdf" "Violin" "pdf" = "parts/Violin.pdf"
    ∧ partPath "parts/*.pdf" "Cello" "pdf" = "parts/Cello.pdf" :=
  ⟨rfl, rfl, rfl, by decide, rfl, rfl, rfl⟩

/-! ### Claim C4 -/

/-- C4 (counterexample): a well-formed batch array whose single job object
has no `out` field parses successfully to zero jobs, strictly fewer than
the one declared input object. -/
theorem parseBatchJob_count_cex :
    parseBatchJob ptOk docNoOut = .ok ([] : List Job)
    ∧ ¬ (docNoOut.toArr.length ≤ ([] : List Job).length) :=
  ⟨rfl, by decide⟩

/-- C4 (amended): for well-formed batch arrays in which every job object's
`out` is a string or a non-empty array, the job count is at least the
number of declared objects; the job list is the in-order concatenation of
per-object chunks (so expanded sub-jobs immediately follow their parent's
position), and an array-valued `out` contributes exactly one job per
element, in element order. -/
theorem parseBatchJob_count_amended (pt : TParser) (objs : List JVal)
    (jobs : List Job)
    (hgood : ∀ v ∈ objs, goodOut v = true)
    (hok : parseBatchJob pt (.arr objs) = .ok jobs) :
    objs.length ≤ jobs.length ∧
    ∃ chunks : List (List Job),
      jobs = chunks.flatten ∧
      chunks.length = objs.length ∧
      ∀ i, (hi : i < objs.length) → (hc : i < chunks.length) →
        ∀ items, (objs.get ⟨i, hi⟩).get "out" = .arr items →
          ∃ base : Job,
            chunks.get ⟨i, hc⟩ =
              items.map (fun it => { base with out := outPathOfItem it }) := by
  have hok' : parseJobs pt objs = .ok jobs := hok
  clear hok
  induction objs generalizing jobs with
  | nil =>
    simp [parseJobs] at hok'
    subst hok'
    exact ⟨Nat.le_refl 0, [], rfl, rfl, fun i hi => absurd hi (Nat.not_lt_zero i)⟩
  | cons v vs ih =>
    rw [parseJobs_cons_ok] at hok'
    obtain ⟨c, rest, hc, hrest, hjobs⟩ := hok'
    obtain ⟨topts, _, hcs⟩ := parseObj_ok_elim pt v c hc
    have hgv : goodOut v = true := hgood v (List.mem_cons_self v vs)
    have hclen : 1 ≤ c.length := by
      rw [hcs]; exact outChunk_length_pos _ _ hgv
    obtain ⟨hlen, chunks, hflat, hchlen, hidx⟩ :=
      ih rest (fun u hu => hgood u (List.mem_cons_of_mem v hu)) hrest
    subst hjobs
    constructor
    · simp only [List.length_cons, List.length_append]
      omega
    · refine ⟨c :: chunks, ?_, ?_, ?_⟩
      · simp [hflat]
      · simp [hchlen]
      · intro i hi hic items hitems
        cases i with
        | zero =>
          refine ⟨{ input := correctUserInputPath (v.get "in").toStr,
                    out := "", transposeOptions := topts }, ?_⟩
          simp only [List.get] at hitems ⊢
          rw [hcs, hitems]
          rfl
        | succ n =>
          have hn : n < vs.length := Nat.lt_of_succ_lt_succ hi
          have hnc : n < chunks.length := Nat.lt_of_succ_lt_succ hic
          exact hidx n hn hnc items hitems

/-! ### Claim C6 -/

/-- A failing transpose step makes `parseObj` fail with the same error. -/
theorem parseObj_error (pt : TParser) (v : JVal) (e : Ret)
    (h : transposeStep pt v = .error e) : parseObj pt v = .error e := by
  simp [parseObj_eq, h, Except.map]

/-- C6: a job object whose non-empty `transpose` object fails to parse
makes `parseBatchJob` fail with exactly that parse error (fail-fast at
parse time) as soon as the loop reaches it, and the batch runner then
processes no job at all: `batchConvert` returns the parse error with an
empty progress trace, for every per-job conversion behavior. -/
theorem parseBatchJob_transpose_fail_fast (pt : TParser) (convert : Job → Ret)
    (pre post : List JVal) (v : JVal) (e : Ret)
    (hpre : ∀ u ∈ pre, ∃ c, parseObj pt u = .ok c)
    (hne : ((v.get "transpose").toObj).isEmpty = false)
    (hf : pt ((v.get "transpose").toObj) = .error e) :
    parseBatchJob pt (.arr (pre ++ v :: post)) = .error e
    ∧ batchConvert pt convert (.arr (pre ++ v :: post)) = (e, []) := by
  have hv : parseObj pt v = .error e :=
    parseObj_error pt v e (transposeStep_fail pt v e hne hf)
  have hparse : parseJobs pt (pre ++ v :: post) = .error e := by
    induction pre with
    | nil => exact parseJobs_cons_error_head pt v post e hv
    | cons u us ih =>
      obtain ⟨c, hc⟩ := hpre u (List.mem_cons_self u us)
      have htail := ih (fun w hw => hpre w (List.mem_cons_of_mem u hw))
      rw [List.cons_append, parseJobs_cons_ok_head pt u _ c hc, htail]
      rfl
  have hparse' : parseBatchJob pt (.arr (pre ++ v :: post)) = .error e := hparse
  exact ⟨hparse', by simp [batchConvert, hparse']⟩

/-- C6 witness: a one-object batch whose transpose payload the collaborator
rejects parses to that error and the batch processes no job. -/
theorem parseBatchJob_transpose_fail_fast_witness :
    parseBatchJob ptFail (.arr [objWithTranspose]) =
      .error (.err .TransposeParseFailed "bad transpose")
    ∧ batchConvert ptFail convW (.arr [objWithTranspose]) =
      (.err .TransposeParseFailed "bad transpose", []) :=
  parseBatchJob_transpose_fail_fast ptFail convW [] [] objWithTranspose
    (.err .TransposeParseFailed "bad transpose")
    (fun u hu => absurd hu (List.not_mem_nil u)) rfl rfl

/-! ### Claim C10 -/

/-- Every job of an `out` expansion carries the base job's input path. -/
theorem outChunk_input (job : Job) (w : JVal) :
    ∀ j ∈ outChunk job w, j.input = job.input := by
  intro j hj
  cases w with
  | str s =>
    simp [outChunk] at hj
    rw [hj]
  | arr items =>
    simp [outChunk] at hj
    obtain ⟨it, -, rfl⟩ := hj
    rfl
  | null => simp [outChunk] at hj
  | bool b => simp [outChunk] at hj
  | num n => simp [outChunk] at hj
  | obj fs => simp [outChunk] at hj

/-- An `out` value that is neither a string nor an array contributes no
job. -/
theorem outChunk_other (job : Job) (w : JVal)
    (hs : w.isStr = false) (ha : w.isArr = false) : outChunk job w = [] := by
  cases w <;> simp_all [JVal.isStr, JVal.isArr, outChunk]

/-- An `out` array element that is neither a string nor a 2-element array
contributes an empty output path. -/
theorem outPathOfItem_bad (it : JVal) (hs : it.isStr = false)
    (h2 : it.toArr.length ≠ 2) : outPathOfItem it = "" := by
  cases it with
  | str s => simp [JVal.isStr] at hs
  | arr xs =>
    simp only [JVal.toArr] at h2
    match xs, h2 with
    | [], _ => rfl
    | [a], _ => rfl
    | a :: b :: c :: t, _ => rfl
    | [a, b], h => exact absurd rfl h
  | null => rfl
  | bool b => rfl
  | num n => rfl
  | obj fs => rfl

/-- A missing or non-string field reads back as the empty string. -/
theorem toStr_of_not_str (w : JVal) (hs : w.isStr = false) : w.toStr = "" := by
  cases w <;> simp_all [JVal.isStr, JVal.toStr]

/-- C10: `parseBatchJob` validates nothing but transpose options.  For
every well-formed JSON array whose job objects' transpose payloads are
absent, empty or parseable, the parse succeeds; and per job object: a
missing or non-string `in` yields jobs with an empty input path; an `out`
that is absent or neither string nor array contributes zero jobs,
silently; and an element of an array-valued `out` that is neither a
string nor a 2-element array still yields a job, whose output path is
empty. -/
theorem parseBatchJob_lenient (pt : TParser) (objs : List JVal)
    (htr : ∀ v ∈ objs, ((v.get "transpose").toObj).isEmpty = true ∨
      ∃ t, pt ((v.get "transpose").toObj) = .ok t) :
    parseOk pt (.arr objs) = true
    ∧ (∀ v ∈ objs, ∀ c, parseObj pt v = .ok c →
        ((v.get "in").isStr = false → ∀ j ∈ c, j.input = "")
        ∧ ((v.get "out").isStr = false → (v.get "out").isArr = false → c = [])
        ∧ (∀ items, v.get "out" = .arr items →
            c.length = items.length
            ∧ ∀ it ∈ items, it.isStr = false → it.toArr.length ≠ 2 →
                outPathOfItem it = "" ∧ ∃ j ∈ c, j.out = "")) := by
  constructor
  · have hex : ∃ jobs, parseJobs pt objs = .ok jobs := by
      induction objs with
      | nil => exact ⟨[], rfl⟩
      | cons v vs ih =>
        have hts : ∃ topts, transposeStep pt v = .ok topts := by
          unfold transposeStep
          cases hemp : ((v.get "transpose").toObj).isEmpty with
          | true => exact ⟨none, by simp [hemp]⟩
          | false =>
            rcases htr v (List.mem_cons_self v vs) with h | ⟨t, ht⟩
            · exact absurd h (by simp [hemp])
            · exact ⟨some t, by simp [hemp, ht, Except.map]⟩
        obtain ⟨topts, ht⟩ := hts
        obtain ⟨rest, hrest⟩ := ih (fun u hu => htr u (List.mem_cons_of_mem v hu))
        refine ⟨outChunk { input := correctUserInputPath (v.get "in").toStr,
                           out := "", transposeOptions := topts }
                  (v.get "out") ++ rest, ?_⟩
        rw [parseJobs_cons_ok_head pt v vs _
              (parseObj_ok_of_transposeStep_ok pt v topts ht), hrest]
        rfl
    obtain ⟨jobs, hjobs⟩ := hex
    have hbj : parseBatchJob pt (.arr objs) = .ok jobs := hjobs
    simp [parseOk, hbj]
  · intro v _ c hc
    obtain ⟨topts, _, hcs⟩ := parseObj_ok_elim pt v c hc
    refine ⟨?_, ?_, ?_⟩
    · intro hin j hj
      rw [outChunk_input _ _ j (hcs ▸ hj)]
      show correctUserInputPath (v.get "in").toStr = ""
      rw [toStr_of_not_str _ hin]
      rfl
    · intro hs ha
      rw [hcs, outChunk_other _ _ hs ha]
    · intro items hitems
      rw [hcs, hitems]
      constructor
      · simp [outChunk]
      · intro it hit hs h2
        exact ⟨outPathOfItem_bad it hs h2,
               ⟨_, List.mem_map_of_mem _ hit, outPathOfItem_bad it hs h2⟩⟩

/-- C10 witness: a batch whose single object has no `in`, no `transpose`,
and an `out` array holding a number still parses successfully. -/
theorem parseBatchJob_lenient_witness :
    parseOk ptOk (.arr [objOddFields]) = true :=
  (parseBatchJob_lenient ptOk [objOddFields]
    (by intro v hv; rw [List.mem_singleton] at hv; subst hv; left; rfl)).1

/-- C4 witness: the amended theorem applied to the batch
`[{"in":"a.ext","out":["b.pdf","c.svg"]}]`, whose one declared object
expands to two jobs. -/
theorem parseBatchJob_count_amended_witness :
    ([objW2] : List JVal).length ≤ jobs2W.length ∧
    ∃ chunks : List (List Job),
      jobs2W = chunks.flatten ∧
      chunks.length = ([objW2] : List JVal).length ∧
      ∀ i, (hi : i < ([objW2] : List JVal).length) →
        (hc : i < chunks.length) →
        ∀ items, (([objW2] : List JVal).get ⟨i, hi⟩).get "out" = .arr items →
          ∃ base : Job,
            chunks.get ⟨i, hc⟩ =
              items.map (fun it => { base with out := outPathOfItem it }) :=
  parseBatchJob_count_amended ptOk [objW2] jobs2W
    (by intro v hv; rw [List.mem_singleton] at hv; subst hv; rfl) rfl

/-! ### Claim C2 -/

/-- String concatenation concatenates the character data. -/
theorem strData_append (a b : String) : (a ++ b).data = a.data ++ b.data := rfl

/-- The failed job's input path occurs inside its formatted error entry. -/
theorem input_infix_fmtJobError (r : Ret) (j : Job) :
    j.input.data <:+: (fmtJobError r j).data := by
  refine ⟨("failed convert, err: " ++ r.toString ++ ", in: ").data,
          (", out: " ++ j.out).data, ?_⟩
  simp [fmtJobError, strData_append, List.append_assoc]

/-- Every entry of the error list occurs inside the newline-joined
aggregate message. -/
theorem mem_infix_joinNl (l : List String) (s : String) (hs : s ∈ l) :
    s.data <:+: (joinNl l).data := by
  induction l with
  | nil => cases hs
  | cons a t ih =>
    cases t with
    | nil =>
      rw [List.mem_singleton] at hs
      subst hs
      exact ⟨[], [], by simp [joinNl]⟩
    | cons b t2 =>
      rcases List.mem_cons.mp hs with rfl | hmem
      · exact ⟨[], ("\n" ++ joinNl (b :: t2)).data,
          by simp [joinNl, strData_append, List.append_assoc]⟩
      · have h2 : (joinNl (b :: t2)).data <:+: (joinNl (a :: b :: t2)).data :=
          ⟨(a ++ "\n").data, [], by simp [joinNl, strData_append, List.append_assoc]⟩
        exact (ih hmem).trans h2

/-- The progress trace covers every job, in order. -/
theorem batchRun_fst (convert : Job → Ret) (jobs : List Job) :
    (batchRun convert jobs).1 = jobs.map Job.input := by
  induction jobs with
  | nil => rfl
  | cons j js ih => simp [batchRun, ih]

/-- The error list holds exactly the formatted entries of the failing
jobs, in order. -/
theorem batchRun_snd (convert : Job → Ret) (jobs : List Job) :
    (batchRun convert jobs).2 =
      (jobs.filter (fun j => !(convert j).success)).map
        (fun j => fmtJobError (convert j) j) := by
  induction jobs with
  | nil => rfl
  | cons j js ih =>
    cases h : (convert j).success <;>
      simp [batchRun, List.filter, h, ih]

/-- C2: the batch runner processes every job in order even when an earlier
job fails (the progress trace lists every input path in declaration
order); the error list holds one formatted `(error, input, output)` entry
per failing job, in order; the aggregate result is success when every job
succeeds, and when any job fails it is a `ConvertFailed` error whose
message newline-joins the entries and contains each failed job's input
path. -/
theorem batchConvert_collects_errors (convert : Job → Ret) (jobs : List Job) :
    (batchRun convert jobs).1 = jobs.map Job.input
    ∧ (batchRun convert jobs).2 =
        (jobs.filter (fun j => !(convert j).success)).map
          (fun j => fmtJobError (convert j) j)
    ∧ ((∀ j ∈ jobs, (convert j).success = true) →
        batchConvertJobs convert jobs = .ok)
    ∧ (∀ j ∈ jobs, (convert j).success = false →
        batchConvertJobs convert jobs =
          .err .ConvertFailed (joinNl ((batchRun convert jobs).2))
        ∧ j.input.data <:+: (joinNl ((batchRun convert jobs).2)).data) := by
  refine ⟨batchRun_fst convert jobs, batchRun_snd convert jobs, ?_, ?_⟩
  · intro hall
    have hnil : (jobs.filter (fun j => !(convert j).success)) = [] :=
      List.filter_eq_nil_iff.mpr (by intro j hj; simp [hall j hj])
    simp [batchConvertJobs, batchRun_snd, hnil]
  · intro j hj hfail
    have hmem : fmtJobError (convert j) j ∈ (batchRun convert jobs).2 := by
      rw [batchRun_snd]
      exact List.mem_map_of_mem _
        (List.mem_filter.mpr ⟨hj, by simp [hfail]⟩)
    have hne : (batchRun convert jobs).2 ≠ [] := List.ne_nil_of_mem hmem
    have hnotempty : ((batchRun convert jobs).2).isEmpty = false := by
      cases hx : (batchRun convert jobs).2 with
      | nil => exact absurd hx hne
      | cons a t => rfl
    refine ⟨?_, ?_⟩
    · simp [batchConvertJobs, hnotempty]
    · exact (input_infix_fmtJobError (convert j) j).trans
        (mem_infix_joinNl _ _ hmem)

/-- C2 witness: in the three-job batch whose middle job fails to load, the
aggregate is a `ConvertFailed` whose message contains the failing job's
input path `a2.mscz`. -/
theorem batchConvert_collects_errors_witness :
    batchConvertJobs convW jobsW =
      .err .ConvertFailed (joinNl ((batchRun convW jobsW).2))
    ∧ ("a2.mscz" : String).data <:+: (joinNl ((batchRun convW jobsW).2)).data :=
  (batchConvert_collects_errors convW jobsW).2.2.2
    { input := "a2.mscz", out := "b2.pdf", transposeOptions := none }
    (List.mem_cons_of_mem _ (List.mem_cons_self _ _)) rfl

/-! ### Claims C3, C5, C7 -/

/-- C3: the single-job dispatcher selects the conversion strategy by the
fixed precedence of the source's branch: when the preamble (writer
lookup, project creation, load, optional transpose) succeeds, a `*` in
the output base name selects per-part conversion; otherwise a valid
extension URI selects extension-driven conversion followed by a single
whole-document write; otherwise a native suffix (mscz/mscx/mscs)
delegates to the project's own save, whose outcome is the writer-registry
independent `saveRet`; otherwise a page-segmented suffix (png/svg)
converts page by page; otherwise a single whole-document conversion
runs. -/
theorem fileConvert_strategy_precedence (env : FcEnv) (inp out : String)
    (extensionValid : Bool) (topts : Option TOpts) (g0 : Option String)
    (hw : env.hasWriter (suffixOf out) = true)
    (hp : env.projectValid = true)
    (hl : env.loadOk = true)
    (ht : topts.isSome = true → env.transposeRet.success = true) :
    ((completeBasenameOf out).data.contains '*' = true →
      (fileConvert env inp out extensionValid topts g0).strategy = some .parts
      ∧ (fileConvert env inp out extensionValid topts g0).ret =
          convertScoreParts env.io env.partNames env.pagesOf out)
    ∧ ((completeBasenameOf out).data.contains '*' = false →
        extensionValid = true →
      (fileConvert env inp out extensionValid topts g0).strategy = some .ext
      ∧ (fileConvert env inp out extensionValid topts g0).ret =
          convertByExtension env.io env.extensionRet out)
    ∧ ((completeBasenameOf out).data.contains '*' = false →
        extensionValid = false →
        (suffixOf out = MSCZ ∨ suffixOf out = MSCX ∨ suffixOf out = MSCS) →
      (fileConvert env inp out extensionValid topts g0).strategy = some .nativeSave
      ∧ (fileConvert env inp out extensionValid topts g0).ret = env.saveRet)
    ∧ ((completeBasenameOf out).data.contains '*' = false →
        extensionValid = false →
        ¬ (suffixOf out = MSCZ ∨ suffixOf out = MSCX ∨ suffixOf out = MSCS) →
        isConvertPageByPage (suffixOf out) = true →
      (fileConvert env inp out extensionValid topts g0).strategy = some .pageByPage
      ∧ (fileConvert env inp out extensionValid topts g0).ret =
          (convertPageByPage env.io env.pages out).1)
    ∧ ((completeBasenameOf out).data.contains '*' = false →
        extensionValid = false →
        ¬ (suffixOf out = MSCZ ∨ suffixOf out = MSCX ∨ suffixOf out = MSCS) →
        isConvertPageByPage (suffixOf out) = false →
      (fileConvert env inp out extensionValid topts g0).strategy = some .whole
      ∧ (fileConvert env inp out extensionValid topts g0).ret =
          convertFullScore env.io out) := by
  have hcond : ¬ (topts.isSome = true ∧ env.transposeRet.success = false) := by
    rintro ⟨h1, h2⟩
    rw [ht h1] at h2
    cases h2
  refine ⟨?_, ?_, ?_, ?_, ?_⟩
  · intro hstar
    have hstar' : '*' ∈ (completeBasenameOf out).data := by simpa using hstar
    simp [fileConvert, hw, hp, hl, hcond, hstar']
  · intro hstar hext
    have hstar' : '*' ∉ (completeBasenameOf out).data := by simpa using hstar
    simp [fileConvert, hw, hp, hl, hcond, hstar', hext]
  · intro hstar hext hnat
    have hstar' : '*' ∉ (completeBasenameOf out).data := by simpa using hstar
    simp [fileConvert, hw, hp, hl, hcond, hstar', hext, hnat]
  · intro hstar hext hnat hpbp
    have hstar' : '*' ∉ (completeBasenameOf out).data := by simpa using hstar
    simp [fileConvert, hw, hp, hl, hcond, hstar', hext, hnat, hpbp]
  · intro hstar hext hnat hpbp
    have hstar' : '*' ∉ (completeBasenameOf out).data := by simpa using hstar
    simp [fileConvert, hw, hp, hl, hcond, hstar', hext, hnat, hpbp]

/-- C3 witness: with every collaborator succeeding, converting `a.mscz` to
`b.xml` with no extension takes the default whole-document strategy. -/
theorem fileConvert_strategy_precedence_witness :
    (fileConvert envAll "a.mscz" "b.xml" false none none).strategy = some .whole
    ∧ (fileConvert envAll "a.mscz" "b.xml" false none none).ret =
        convertFullScore envAll.io "b.xml" :=
  (fileConvert_strategy_precedence envAll "a.mscz" "b.xml" false none none
      rfl rfl rfl (fun _ => rfl)).2.2.2.2 rfl rfl (by decide) rfl

/-- C5: whenever the dispatcher's preamble succeeds (so the loaded
document is registered as the process-wide current project), the slot
holds the loaded document at the moment of the strategy branch, and it is
cleared again when `fileConvert` returns — on every exit path, since the
strategy results in the environment are arbitrary (success, per-part
`NotSupported`, extension/page/whole-document write failures, native-save
failure). -/
theorem fileConvert_current_scoped (env : FcEnv) (inp out : String)
    (extensionValid : Bool) (topts : Option TOpts) (g0 : Option String)
    (hw : env.hasWriter (suffixOf out) = true)
    (hp : env.projectValid = true)
    (hl : env.loadOk = true)
    (ht : topts.isSome = true → env.transposeRet.success = true) :
    (fileConvert env inp out extensionValid topts g0).currentDuring = some inp
    ∧ (fileConvert env inp out extensionValid topts g0).currentFinal = none := by
  have hcond : ¬ (topts.isSome = true ∧ env.transposeRet.success = false) := by
    rintro ⟨h1, h2⟩
    rw [ht h1] at h2
    cases h2
  simp [fileConvert, hw, hp, hl, hcond]

/-- C5 witness: converting `song.mscz` to the part template `parts/*.pdf`
registers `song.mscz` for the dispatch and leaves the slot null on
return. -/
theorem fileConvert_current_scoped_witness :
    (fileConvert envAll "song.mscz" "parts/*.pdf" false none none).currentDuring
      = some "song.mscz"
    ∧ (fileConvert envAll "song.mscz" "parts/*.pdf" false none none).currentFinal
      = none :=
  fileConvert_current_scoped envAll "song.mscz" "parts/*.pdf" false none none
    rfl rfl rfl (fun _ => rfl)

/-- C7: when no writer is registered for the output suffix, `fileConvert`
returns `ConvertTypeUnknown` without attempting to load the input — the
whole result record, including the untouched current-project slot and the
`loadAttempted := false` trace, is the early-exit one, whatever the
loader would have answered. -/
theorem fileConvert_unknown_type_no_load (env : FcEnv) (inp out : String)
    (extensionValid : Bool) (topts : Option TOpts) (g0 : Option String)
    (hw : env.hasWriter (suffixOf out) = false) :
    fileConvert env inp out extensionValid topts g0 =
      ⟨.err .ConvertTypeUnknown "", false, none, g0, g0⟩ := by
  simp [fileConvert, hw]

/-- C7 witness: with an empty writer registry and a loader that would
succeed, converting `a.mscz` to `b.pdf` fails with `ConvertTypeUnknown`
and never attempts the load. -/
theorem fileConvert_unknown_type_no_load_witness :
    fileConvert envNoWriter "a.mscz" "b.pdf" false none none =
      ⟨.err .ConvertTypeUnknown "", false, none, none, none⟩ :=
  fileConvert_unknown_type_no_load envNoWriter "a.mscz" "b.pdf" false none none rfl

/-! ### Claim C8 -/

/-- When every page's open and write succeed, the loop writes one file per
index, in order, passing each 0-based index as the page-number option. -/
theorem pbpGo_all_ok (env : IoEnv) (out : String) (l : List Nat)
    (h : ∀ i ∈ l, env.openOk (pageFilePath out i) = true ∧
        env.writeOk (pageFilePath out i) = true) :
    pbpGo env out l = (.ok, l.map (fun i => (pageFilePath out i, i))) := by
  induction l with
  | nil => rfl
  | cons i rest ih =>
    obtain ⟨ho, hwr⟩ := h i (List.mem_cons_self i rest)
    simp [pbpGo, ho, hwr, ih (fun x hx => h x (List.mem_cons_of_mem i hx))]

/-- A successful leading segment of the loop passes through to the rest. -/
theorem pbpGo_append (env : IoEnv) (out : String) (l₁ l₂ : List Nat)
    (h : ∀ i ∈ l₁, env.openOk (pageFilePath out i) = true ∧
        env.writeOk (pageFilePath out i) = true) :
    pbpGo env out (l₁ ++ l₂) =
      ((pbpGo env out l₂).1,
       l₁.map (fun i => (pageFilePath out i, i)) ++ (pbpGo env out l₂).2) := by
  induction l₁ with
  | nil => rfl
  | cons i rest ih =>
    obtain ⟨ho, hwr⟩ := h i (List.mem_cons_self i rest)
    simp [pbpGo, ho, hwr, ih (fun x hx => h x (List.mem_cons_of_mem i hx))]

/-- The page-index range splits at any `j < pages`. -/
theorem range_split_at (pages j : Nat) (hj : j < pages) :
    ∃ tail, List.range pages = List.range j ++ j :: tail := by
  refine ⟨(List.range (pages - j - 1)).map (fun x => j + Nat.succ x), ?_⟩
  rw [show pages = j + (pages - j - 1 + 1) by omega, List.range_add,
      List.range_succ_eq_map]
  simp

/-- C8: page-by-page conversion names the output of 0-based page `i` by
inserting the 1-based index `i + 1` between the base name and the suffix
of the output template; with `P` pages and all I/O succeeding it produces
exactly the `P` files in page order, the writer options of page `i`
carrying the 0-based `i`; and it stops at the first open failure with
`OutFileFailedOpen`, or first write failure with `OutFileFailedWrite`. -/
theorem convertPageByPage_spec (env : IoEnv) (pages : Nat) (out : String) :
    (∀ i, pageFilePath out i = dirpathOf out ++ "/" ++ completeBasenameOf out
        ++ "-" ++ Nat.repr (i + 1) ++ "." ++ suffixOf out)
    ∧ ((∀ i < pages, env.openOk (pageFilePath out i) = true ∧
          env.writeOk (pageFilePath out i) = true) →
        convertPageByPage env pages out =
          (.ok, (List.range pages).map (fun i => (pageFilePath out i, i))))
    ∧ (∀ j, j < pages →
        (∀ i < j, env.openOk (pageFilePath out i) = true ∧
            env.writeOk (pageFilePath out i) = true) →
        (env.openOk (pageFilePath out j) = false →
          (convertPageByPage env pages out).1 = .err .OutFileFailedOpen "")
        ∧ (env.openOk (pageFilePath out j) = true →
            env.writeOk (pageFilePath out j) = false →
          (convertPageByPage env pages out).1 = .err .OutFileFailedWrite "")) := by
  refine ⟨fun i => rfl, ?_, ?_⟩
  · intro h
    exact pbpGo_all_ok env out (List.range pages)
      (fun i hi => h i (List.mem_range.mp hi))
  · intro j hj hprev
    obtain ⟨tail, htail⟩ := range_split_at pages j hj
    have hsp : (convertPageByPage env pages out).1 =
        (pbpGo env out (j :: tail)).1 := by
      rw [convertPageByPage, htail,
          pbpGo_append env out _ _ (fun i hi => hprev i (List.mem_range.mp hi))]
    constructor
    · intro hopen
      rw [hsp]
      simp [pbpGo, hopen]
    · intro hopen hwrite
      rw [hsp]
      simp [pbpGo, hopen, hwrite]

/-- C8 witness: a 2-page document written to `d/a.png` with all I/O
succeeding yields `d/a-1.png` (page option 0) and `d/a-2.png` (page
option 1). -/
theorem convertPageByPage_spec_witness :
    convertPageByPage ioAll 2 "d/a.png" =
      (.ok, (List.range 2).map (fun i => (pageFilePath "d/a.png" i, i))) :=
  (convertPageByPage_spec ioAll 2 "d/a.png").2.1 (fun _ _ => ⟨rfl, rfl⟩)

/-! ### Claim C9 -/

/-- C9: a templated (part-wildcard) output is accepted by the per-part
entry point only for the part-splitting output kinds — document export
(`pdf`), page-image export (`png`) and audio export (`mp3`), each
dispatched to its dedicated per-part conversion — and every other output
suffix is rejected with `NotSupported`. -/
theorem convertScoreParts_kind_gate (env : IoEnv) (partNames : List String)
    (pagesOf : String → Nat) (out : String) :
    (suffixOf out ≠ "pdf" → suffixOf out ≠ "png" → suffixOf out ≠ "mp3" →
      convertScoreParts env partNames pagesOf out = .err .NotSupported "")
    ∧ (suffixOf out = "pdf" →
        convertScoreParts env partNames pagesOf out =
          convertScorePartsToPdf env partNames out)
    ∧ (suffixOf out = "png" →
        convertScoreParts env partNames pagesOf out =
          convertScorePartsToPngs env partNames pagesOf out)
    ∧ (suffixOf out = "mp3" →
        convertScoreParts env partNames pagesOf out =
          convertScorePartsToMp3 env partNames out) := by
  refine ⟨?_, ?_, ?_, ?_⟩
  · intro h1 h2 h3
    simp [convertScoreParts, h1, h2, h3]
  · intro h
    simp [convertScoreParts, h]
  · intro h
    simp [convertScoreParts, h]
  · intro h
    simp [convertScoreParts, h]

/-- C9 witness: an `svg` part template — page-segmented but not a
part-splitting kind — is rejected with `NotSupported`. -/
theorem convertScoreParts_kind_gate_witness :
    convertScoreParts ioAll ["Violin"] (fun _ => 1) "x.svg" =
      .err .NotSupported "" :=
  (convertScoreParts_kind_gate ioAll ["Violin"] (fun _ => 1) "x.svg").1
    (by decide) (by decide) (by decide)

end Conv
